import Mathlib

/-!
Verification of the fast-forth SSA construction engine and optimizer driver.

The definitions below are a shallow embedding of the Rust sources:
  - `src/frontend/src/ssa.rs` (SSA data model and the `SSAConverter`),
  - `src/optimizer/src/lib.rs` (the `Optimizer` driver and `OptimizationLevel`).
Rust `Vec` values are lists; the converter's simulated value stack is
represented with the top of the stack at the HEAD of the list (Rust pushes
and pops at the end of its `Vec`), and wherever the source stores a stack
bottom-first (function parameters, `Return` operands) the embedding reverses
accordingly.  Stateful `&mut self` methods become explicit state passing on
the `SSAConverter` structure; fallible methods return `Except`.

Types whose defining file is not under `src/` (the frontend's `ast.rs` and
`error.rs`, the optimizer's `ir.rs`, `inline.rs` and `analysis.rs`) are
reconstructed: the AST and error shapes are fully determined by their uses in
`ssa.rs` and `parser.rs`; the flat IR, call graph and inliner are modelled
from the specification and are marked `Modelled from the spec:` in their doc
comments.
-/

namespace FastForth

/-- Stack value types, from the frontend (`StackType` is consumed by
`ssa.rs` for `Load`/`Store` and produced by `parser.rs` stack effects). -/
inductive StackType where
  | Int
  | Float
  | Addr
  | Bool
  | Char
  | String
  | Unknown
deriving DecidableEq

/-- Stand-in for Rust `f64`: the SSA converter only stores float literals and
never computes with them, so an opaque bit pattern is a faithful carrier. -/
structure F64 where
  bits : Nat
deriving DecidableEq

/-- The AST `Word` type of the frontend.  `ast.rs` is absent from `src/`, but
the exhaustive `match` in `SSAConverter::convert_word` and the constructor
uses in `parser.rs` determine every variant and field (source locations,
which `ssa.rs` ignores, are dropped). -/
inductive Word where
  | IntLiteral (value : Int)
  | FloatLiteral (value : F64)
  | StringLiteral (value : String)
  | WordRef (name : String)
  | If (then_branch : List Word) (else_branch : Option (List Word))
  | BeginUntil (body : List Word)
  | BeginWhileRepeat (condition : List Word) (body : List Word)
  | DoLoop (body : List Word) (increment : Int)
  | Variable (name : String)
  | Constant (name : String) (value : Int)
  | Comment (text : String)

/-- Declared stack effect of a definition (`parser.rs`). -/
structure StackEffect where
  inputs : List StackType
  outputs : List StackType
deriving DecidableEq

/-- A word definition, as produced by `Parser::parse_definition`. -/
structure Definition where
  name : String
  body : List Word
  immediate : Bool
  stack_effect : Option StackEffect

/-- A parsed program (`Parser::parse_program`). -/
structure Program where
  definitions : List Definition
  top_level_code : List Word

/-- Modelled from the spec: the frontend error type (`error.rs` is absent from
`src/`).  The `StackUnderflow` fields `word`, `expected` and `found` are fixed
by the constructor uses in `ssa.rs`; the remaining variants follow the error
taxonomy of spec section 7 (StackUnderflow, StackOverflow, InvalidStackEffect,
OptimizationFailed, ParseError). -/
inductive ForthError where
  | StackUnderflow (word : String) (expected : Nat) (found : Nat)
  | StackOverflow (word : String) (limit : Nat)
  | InvalidStackEffect (message : String)
  | OptimizationFailed (message : String)
  | ParseError (line : Nat) (column : Nat) (message : String)
deriving DecidableEq

/-- SSA register (`Register` in `ssa.rs`); equality is by identifier. -/
structure Register where
  id : Nat
deriving DecidableEq

/-- Basic block identifier (`BlockId` in `ssa.rs`). -/
structure BlockId where
  id : Nat
deriving DecidableEq

/-- Binary operators of the SSA IR (`BinaryOperator` in `ssa.rs`). -/
inductive BinaryOperator where
  | Add | Sub | Mul | Div | Mod
  | Lt | Gt | Le | Ge | Eq | Ne
  | And | Or
deriving DecidableEq

/-- The `Display` name of a binary operator (`impl fmt::Display for
BinaryOperator`); `convert_binary_op` uses it as the `word` of a
`StackUnderflow` error. -/
def BinaryOperator.display : BinaryOperator → String
  | .Add => "add"
  | .Sub => "sub"
  | .Mul => "mul"
  | .Div => "div"
  | .Mod => "mod"
  | .Lt => "lt"
  | .Gt => "gt"
  | .Le => "le"
  | .Ge => "ge"
  | .Eq => "eq"
  | .Ne => "ne"
  | .And => "and"
  | .Or => "or"

/-- Unary operators of the SSA IR (`UnaryOperator` in `ssa.rs`). -/
inductive UnaryOperator where
  | Negate
  | Not
  | Abs
deriving DecidableEq

/-- The `Display` name of a unary operator. -/
def UnaryOperator.display : UnaryOperator → String
  | .Negate => "neg"
  | .Not => "not"
  | .Abs => "abs"

/-- SSA instructions (`SSAInstruction` in `ssa.rs`); `SmallVec` fields are
lists. -/
inductive SSAInstruction where
  | LoadInt (dest : Register) (value : Int)
  | LoadFloat (dest : Register) (value : F64)
  | LoadString (dest : Register) (value : String)
  | BinaryOp (dest : Register) (op : BinaryOperator) (left : Register) (right : Register)
  | UnaryOp (dest : Register) (op : UnaryOperator) (operand : Register)
  | Call (dest : List Register) (name : String) (args : List Register)
  | Branch (condition : Register) (true_block : BlockId) (false_block : BlockId)
  | Jump (target : BlockId)
  | Return (values : List Register)
  | Phi (dest : Register) (incoming : List (BlockId × Register))
  | Load (dest : Register) (address : Register) (ty : StackType)
  | Store (address : Register) (value : Register) (ty : StackType)
deriving DecidableEq

/-- Basic block (`BasicBlock` in `ssa.rs`). -/
structure BasicBlock where
  id : BlockId
  instructions : List SSAInstruction
  predecessors : List BlockId
deriving DecidableEq

/-- `BasicBlock::new`. -/
def BasicBlock.new (id : BlockId) : BasicBlock :=
  { id := id, instructions := [], predecessors := [] }

/-- SSA function (`SSAFunction` in `ssa.rs`). -/
structure SSAFunction where
  name : String
  parameters : List Register
  blocks : List BasicBlock
  entry_block : BlockId
deriving DecidableEq

/-- `SSAFunction::new`: parameters are registers `0..param_count`, a fresh
block 0 is installed and `entry_block` is block 0. -/
def SSAFunction.new (name : String) (param_count : Nat) : SSAFunction :=
  { name := name
    parameters := (List.range param_count).map Register.mk
    blocks := [BasicBlock.new ⟨0⟩]
    entry_block := ⟨0⟩ }

/-- Converter state (`SSAConverter` in `ssa.rs`). -/
structure SSAConverter where
  next_register : Nat
  next_block : Nat
  current_block : BlockId
  blocks : List BasicBlock
deriving DecidableEq

/-- `SSAConverter::new`. -/
def SSAConverter.new : SSAConverter :=
  { next_register := 0, next_block := 0, current_block := ⟨0⟩, blocks := [] }

/-- `SSAConverter::fresh_register`. -/
def SSAConverter.fresh_register (c : SSAConverter) : SSAConverter × Register :=
  ({ c with next_register := c.next_register + 1 }, ⟨c.next_register⟩)

/-- `SSAConverter::fresh_block`. -/
def SSAConverter.fresh_block (c : SSAConverter) : SSAConverter × BlockId :=
  ({ c with next_block := c.next_block + 1 }, ⟨c.next_block⟩)

/-- Helper for `emit`: push the instruction onto the first block with the
given id, leaving the list unchanged when no block matches (this mirrors
`self.blocks.iter_mut().find(..)` yielding `None`). -/
def emit_into (target : BlockId) (instruction : SSAInstruction) :
    List BasicBlock → List BasicBlock
  | [] => []
  | b :: bs =>
    if b.id = target then
      { b with instructions := b.instructions ++ [instruction] } :: bs
    else
      b :: emit_into target instruction bs

/-- `SSAConverter::emit`: append to the current block if it exists; silently
do nothing otherwise. -/
def SSAConverter.emit (c : SSAConverter) (instruction : SSAInstruction) : SSAConverter :=
  { c with blocks := emit_into c.current_block instruction c.blocks }

/-- `SSAConverter::create_block`. -/
def SSAConverter.create_block (c : SSAConverter) : SSAConverter × BlockId :=
  let (c, id) := c.fresh_block
  ({ c with blocks := c.blocks ++ [BasicBlock.new id] }, id)

/-- `SSAConverter::set_current_block`. -/
def SSAConverter.set_current_block (c : SSAConverter) (id : BlockId) : SSAConverter :=
  { c with current_block := id }

/-- `SSAConverter::convert_binary_op`.  The simulated stack carries its top at
the head, so the first element is the `right` operand (popped first in the
source) and the second is `left`. -/
def SSAConverter.convert_binary_op (c : SSAConverter) (op : BinaryOperator)
    (stack : List Register) : Except ForthError (SSAConverter × List Register) :=
  match stack with
  | right :: left :: rest =>
    let (c, dest) := c.fresh_register
    .ok (c.emit (.BinaryOp dest op left right), dest :: rest)
  | _ => .error (.StackUnderflow op.display 2 stack.length)

/-- `SSAConverter::convert_unary_op`. -/
def SSAConverter.convert_unary_op (c : SSAConverter) (op : UnaryOperator)
    (stack : List Register) : Except ForthError (SSAConverter × List Register) :=
  match stack with
  | operand :: rest =>
    let (c, dest) := c.fresh_register
    .ok (c.emit (.UnaryOp dest op operand), dest :: rest)
  | [] => .error (.StackUnderflow op.display 1 0)

/-- `SSAConverter::convert_word_call`: the big dispatch on built-in names.
Stack manipulation words rearrange the simulated stack (top at head); every
underflow check mirrors the source's `expected`/`found` fields. -/
def SSAConverter.convert_word_call (c : SSAConverter) (name : String)
    (stack : List Register) : Except ForthError (SSAConverter × List Register) :=
  match name with
  | "+" => c.convert_binary_op .Add stack
  | "-" => c.convert_binary_op .Sub stack
  | "*" => c.convert_binary_op .Mul stack
  | "/" => c.convert_binary_op .Div stack
  | "mod" => c.convert_binary_op .Mod stack
  | "<" => c.convert_binary_op .Lt stack
  | ">" => c.convert_binary_op .Gt stack
  | "<=" => c.convert_binary_op .Le stack
  | ">=" => c.convert_binary_op .Ge stack
  | "=" => c.convert_binary_op .Eq stack
  | "<>" => c.convert_binary_op .Ne stack
  | "and" => c.convert_binary_op .And stack
  | "or" => c.convert_binary_op .Or stack
  | "not" => c.convert_unary_op .Not stack
  | "negate" => c.convert_unary_op .Negate stack
  | "abs" => c.convert_unary_op .Abs stack
  | "dup" =>
    match stack with
    | reg :: _ => .ok (c, reg :: stack)
    | [] => .error (.StackUnderflow "dup" 1 0)
  | "drop" =>
    match stack with
    | _ :: rest => .ok (c, rest)
    | [] => .error (.StackUnderflow "drop" 1 0)
  | "swap" =>
    match stack with
    | a :: b :: rest => .ok (c, b :: a :: rest)
    | _ => .error (.StackUnderflow "swap" 2 stack.length)
  | "over" =>
    match stack with
    | a :: b :: rest => .ok (c, b :: a :: b :: rest)
    | _ => .error (.StackUnderflow "over" 2 stack.length)
  | "rot" =>
    match stack with
    | a :: b :: x :: rest => .ok (c, x :: a :: b :: rest)
    | _ => .error (.StackUnderflow "rot" 3 stack.length)
  | "@" =>
    match stack with
    | addr :: rest =>
      let (c, dest) := c.fresh_register
      .ok (c.emit (.Load dest addr .Int), dest :: rest)
    | [] => .error (.StackUnderflow "@" 1 0)
  | "!" =>
    match stack with
    | addr :: value :: rest => .ok (c.emit (.Store addr value .Int), rest)
    | _ => .error (.StackUnderflow "!" 2 stack.length)
  | ">r" =>
    let (c, dest) := c.fresh_register
    match stack with
    | val :: rest => .ok (c.emit (.Call [dest] ">r" [val]), rest)
    | [] => .error (.StackUnderflow ">r" 1 0)
  | "r>" =>
    let (c, dest) := c.fresh_register
    .ok (c.emit (.Call [dest] "r>" []), dest :: stack)
  | "r@" =>
    let (c, dest) := c.fresh_register
    .ok (c.emit (.Call [dest] "r@" []), dest :: stack)
  | "." =>
    match stack with
    | val :: rest => .ok (c.emit (.Call [] "." [val]), rest)
    | [] => .error (.StackUnderflow "." 1 0)
  | "emit" =>
    match stack with
    | val :: rest => .ok (c.emit (.Call [] "emit" [val]), rest)
    | [] => .error (.StackUnderflow "emit" 1 0)
  | "cr" =>
    match stack with
    | val :: rest => .ok (c.emit (.Call [] "cr" [val]), rest)
    | [] => .error (.StackUnderflow "cr" 1 0)
  | "i" =>
    let (c, dest) := c.fresh_register
    .ok (c.emit (.Call [dest] "i" []), dest :: stack)
  | "j" =>
    let (c, dest) := c.fresh_register
    .ok (c.emit (.Call [dest] "j" []), dest :: stack)
  | "execute" =>
    let (c, dest) := c.fresh_register
    match stack with
    | top :: rest => .ok (c.emit (.Call [dest] "execute" [top]), dest :: rest)
    | [] => .ok (c.emit (.Call [dest] "execute" []), dest :: stack)
  | "char" =>
    let (c, dest) := c.fresh_register
    .ok (c.emit (.Call [dest] "char" []), dest :: stack)
  | other =>
    let (c, dest) := c.fresh_register
    .ok (c.emit (.Call [dest] other []), dest :: stack)

/-- The block-choice expression of `SSAConverter::convert_if`: a fresh else
block when an else-branch exists, otherwise the merge block itself. -/
def pick_else_block (c : SSAConverter) (else_branch : Option (List Word))
    (merge_block : BlockId) : SSAConverter × BlockId :=
  match else_branch with
  | some _ => c.create_block
  | none => (c, merge_block)

mutual

/-- `SSAConverter::convert_sequence`: left-to-right translation, threading the
simulated stack; a `?` in the source becomes error propagation. -/
def SSAConverter.convert_sequence (c : SSAConverter) (words : List Word)
    (stack : List Register) : Except ForthError (SSAConverter × List Register) :=
  match words with
  | [] => .ok (c, stack)
  | w :: ws =>
    match c.convert_word w stack with
    | .error e => .error e
    | .ok (c, stack) => c.convert_sequence ws stack
termination_by (sizeOf words, 0)

/-- `SSAConverter::convert_word`. -/
def SSAConverter.convert_word (c : SSAConverter) (w : Word)
    (stack : List Register) : Except ForthError (SSAConverter × List Register) :=
  match w with
  | .IntLiteral value =>
    let (c, dest) := c.fresh_register
    .ok (c.emit (.LoadInt dest value), dest :: stack)
  | .FloatLiteral value =>
    let (c, dest) := c.fresh_register
    .ok (c.emit (.LoadFloat dest value), dest :: stack)
  | .StringLiteral value =>
    let (c, dest) := c.fresh_register
    .ok (c.emit (.LoadString dest value), dest :: stack)
  | .WordRef name => c.convert_word_call name stack
  | .If then_branch else_branch => c.convert_if then_branch else_branch stack
  | .BeginUntil body => c.convert_begin_until body stack
  | .BeginWhileRepeat condition body => c.convert_begin_while_repeat condition body stack
  | .DoLoop body _ => c.convert_do_loop body stack
  | .Variable _ =>
    let (c, dest) := c.fresh_register
    .ok (c, dest :: stack)
  | .Constant _ value =>
    let (c, dest) := c.fresh_register
    .ok (c.emit (.LoadInt dest value), dest :: stack)
  | .Comment _ => .ok (c, stack)
termination_by (sizeOf w, 1)

/-- `SSAConverter::convert_if`: pop the condition, allocate then/merge (and
else when present) blocks, branch, translate each branch from a clone of the
popped stack with a jump to merge, and resume in merge with the then-stack.
The source's `if else_branch.is_some()` block-choice expression and its
`if let Some(else_words) = else_branch` translation block are the helper
functions `pick_else_block` and `convert_if_else`. -/
def SSAConverter.convert_if (c : SSAConverter) (then_branch : List Word)
    (else_branch : Option (List Word)) (stack : List Register) :
    Except ForthError (SSAConverter × List Register) :=
  match stack with
  | [] => .error (.StackUnderflow "IF" 1 0)
  | condition :: pre =>
    let (c, then_block) := c.create_block
    let (c, merge_block) := c.create_block
    let (c, else_block) := pick_else_block c else_branch merge_block
    let c := c.emit (.Branch condition then_block else_block)
    let c := c.set_current_block then_block
    match c.convert_sequence then_branch pre with
    | .error e => .error e
    | .ok (c, then_stack) =>
      let c := c.emit (.Jump merge_block)
      match c.convert_if_else else_branch else_block merge_block pre with
      | .error e => .error e
      | .ok c => .ok (c.set_current_block merge_block, then_stack)
termination_by (sizeOf then_branch + sizeOf else_branch, 1)
decreasing_by
  all_goals have he : 0 < sizeOf else_branch := by cases else_branch <;> simp_arith
  all_goals have ht : 0 < sizeOf then_branch := by cases then_branch <;> simp_arith
  all_goals decreasing_tactic

/-- The else-arm of `SSAConverter::convert_if` (`if let Some(else_words) =
else_branch`): translate the else-words from their own clone of the popped
stack, in the else block, ending with a jump to merge; the else-arm's
resulting stack is discarded by the source. -/
def SSAConverter.convert_if_else (c : SSAConverter) (else_branch : Option (List Word))
    (else_block merge_block : BlockId) (pre : List Register) :
    Except ForthError SSAConverter :=
  match else_branch with
  | none => .ok c
  | some else_words =>
    let c := c.set_current_block else_block
    match c.convert_sequence else_words pre with
    | .error e => .error e
    | .ok (c, _) => .ok (c.emit (.Jump merge_block))
termination_by (sizeOf else_branch, 1)

/-- `SSAConverter::convert_begin_until`. -/
def SSAConverter.convert_begin_until (c : SSAConverter) (body : List Word)
    (stack : List Register) : Except ForthError (SSAConverter × List Register) :=
  let (c, loop_block) := c.create_block
  let (c, exit_block) := c.create_block
  let c := c.emit (.Jump loop_block)
  let c := c.set_current_block loop_block
  match c.convert_sequence body stack with
  | .error e => .error e
  | .ok (c, loop_stack) =>
    match loop_stack with
    | [] => .error (.StackUnderflow "UNTIL" 1 0)
    | condition :: loop_stack =>
      let c := c.emit (.Branch condition exit_block loop_block)
      .ok (c.set_current_block exit_block, loop_stack)
termination_by (sizeOf body, 1)

/-- `SSAConverter::convert_begin_while_repeat`. -/
def SSAConverter.convert_begin_while_repeat (c : SSAConverter)
    (condition : List Word) (body : List Word) (stack : List Register) :
    Except ForthError (SSAConverter × List Register) :=
  let (c, cond_block) := c.create_block
  let (c, body_block) := c.create_block
  let (c, exit_block) := c.create_block
  let c := c.emit (.Jump cond_block)
  let c := c.set_current_block cond_block
  match c.convert_sequence condition stack with
  | .error e => .error e
  | .ok (c, cond_stack) =>
    match cond_stack with
    | [] => .error (.StackUnderflow "WHILE" 1 0)
    | cond_val :: cond_stack =>
      let c := c.emit (.Branch cond_val body_block exit_block)
      let c := c.set_current_block body_block
      match c.convert_sequence body cond_stack with
      | .error e => .error e
      | .ok (c, _) =>
        let c := c.emit (.Jump cond_block)
        .ok (c.set_current_block exit_block, cond_stack)
termination_by (sizeOf condition + sizeOf body, 1)
decreasing_by
  all_goals have hb : 0 < sizeOf body := by cases body <;> simp_arith
  all_goals have hc : 0 < sizeOf condition := by cases condition <;> simp_arith
  all_goals decreasing_tactic

/-- `SSAConverter::convert_do_loop`. -/
def SSAConverter.convert_do_loop (c : SSAConverter) (body : List Word)
    (stack : List Register) : Except ForthError (SSAConverter × List Register) :=
  match stack with
  | _limit :: _start :: rest =>
    let (c, loop_block) := c.create_block
    let (c, exit_block) := c.create_block
    let c := c.emit (.Jump loop_block)
    let c := c.set_current_block loop_block
    match c.convert_sequence body rest with
    | .error e => .error e
    | .ok (c, loop_stack) =>
      let c := c.emit (.Jump exit_block)
      .ok (c.set_current_block exit_block, loop_stack)
  | _ => .error (.StackUnderflow "DO" 2 stack.length)
termination_by (sizeOf body, 1)

end

/-- `SSAConverter::convert_definition`: reset the register counter to the
parameter count, create the entry block, seed the stack with the parameters
(top of stack at the head, so the parameter list is reversed), translate the
body, emit the `Return` of everything left on the stack (bottom-first, as the
source's `SmallVec::from_vec`), and move the converter's blocks into the
function. -/
def SSAConverter.convert_definition (c : SSAConverter) (d : Definition) :
    Except ForthError (SSAConverter × SSAFunction) :=
  let param_count := (d.stack_effect.map (fun e => e.inputs.length)).getD 0
  let function := SSAFunction.new d.name param_count
  let c := { c with next_register := param_count }
  let (c, entry) := c.create_block
  let c := c.set_current_block entry
  let stack : List Register := function.parameters.reverse
  match c.convert_sequence d.body stack with
  | .error e => .error e
  | .ok (c, stack) =>
    let c := c.emit (.Return stack.reverse)
    .ok ({ c with blocks := [] }, { function with blocks := c.blocks })

/-- `convert_to_ssa`: one shared converter is threaded through every
definition of the program. -/
def convert_to_ssa (program : Program) : Except ForthError (List SSAFunction) :=
  go SSAConverter.new program.definitions
where
  /-- The loop body of `convert_to_ssa`, with the converter explicit. -/
  go (c : SSAConverter) : List Definition → Except ForthError (List SSAFunction)
    | [] => .ok []
    | d :: ds =>
      match c.convert_definition d with
      | .error e => .error e
      | .ok (c, function) =>
        match go c ds with
        | .error e => .error e
        | .ok functions => .ok (function :: functions)

/-- Optimization levels (`OptimizationLevel` in `src/optimizer/src/lib.rs`);
the derived Rust `Ord` is declaration order. -/
inductive OptimizationLevel where
  | None
  | Basic
  | Standard
  | Aggressive
deriving DecidableEq

/-- Declaration-order rank, giving the derived `PartialOrd`/`Ord`. -/
def OptimizationLevel.toNat : OptimizationLevel → Nat
  | .None => 0
  | .Basic => 1
  | .Standard => 2
  | .Aggressive => 3

instance : LE OptimizationLevel :=
  ⟨fun a b => a.toNat ≤ b.toNat⟩

instance (a b : OptimizationLevel) : Decidable (a ≤ b) :=
  Nat.decLe a.toNat b.toNat

/-- `OptimizerError` in `src/optimizer/src/lib.rs`. -/
inductive OptimizerError where
  | StackUnderflow (at_instruction : Nat)
  | StackOverflow (at_instruction : Nat)
  | InvalidStackEffect (message : String)
  | OptimizationFailed (message : String)
  | ParseError (message : String)
deriving DecidableEq

/-- Modelled from the spec: the flat IR instruction type (`ir.rs` is absent
from `src/`).  The concrete variants are the ones constructed in
`AGGRESSIVE_INLINE_USAGE_EXAMPLE.rs` (`Literal`, `Add`, `Sub`, `Mul`, `Gt`,
`Dup`, `Call`); `IfThen` carries a nested body, reflecting the spec's call
scanning "including within nested control structures" (section 4.2). -/
inductive Instruction where
  | Literal (value : Int)
  | Add
  | Sub
  | Mul
  | Gt
  | Dup
  | Call (name : String)
  | IfThen (body : List Instruction)

/-- Modelled from the spec: a flat-IR word definition (section 3 WordDef - a
name, an ordered instruction list, and an `is_inline` force-inline flag). -/
structure WordDef where
  name : String
  instructions : List Instruction
  is_inline : Bool

/-- `WordDef::new` as used in `AGGRESSIVE_INLINE_USAGE_EXAMPLE.rs`: the
`is_inline` flag starts false and is set by assignment afterwards. -/
def WordDef.new (name : String) (instructions : List Instruction) : WordDef :=
  { name := name, instructions := instructions, is_inline := false }

/-- Modelled from the spec: the flat IR program (`ir.rs` absent): an ordered
word list plus the top-level `main` instruction sequence. -/
structure ForthIR where
  words : List WordDef
  main : List Instruction

mutual

/-- Preorder listing of an instruction and every instruction nested inside
it; the basis for the recursive scans of the spec (section 4.2). -/
def Instruction.flatten : Instruction → List Instruction
  | .IfThen body => .IfThen body :: flatten_list body
  | i => [i]
termination_by i => (sizeOf i, 1)

/-- `Instruction.flatten` over a sequence. -/
def flatten_list : List Instruction → List Instruction
  | [] => []
  | i :: is => i.flatten ++ flatten_list is
termination_by l => (sizeOf l, 0)

end

/-- Callee names of every `Call` in a sequence, nested bodies included, in
order of occurrence. -/
def call_names (l : List Instruction) : List String :=
  (flatten_list l).filterMap (fun i =>
    match i with
    | .Call n => some n
    | _ => none)

/-- Number of instructions in a sequence, nested bodies included. -/
def instr_count (l : List Instruction) : Nat :=
  (flatten_list l).length

/-- Modelled from the spec: `ForthIR::instruction_count` (used by
`AGGRESSIVE_INLINE_USAGE_EXAMPLE.rs`): total instructions over `main` and all
word bodies. -/
def ForthIR.instruction_count (ir : ForthIR) : Nat :=
  instr_count ir.main + (ir.words.map (fun w => instr_count w.instructions)).sum

/-- Total number of `Call` instructions in the program (the "calls
before/after" statistic of the spec). -/
def ForthIR.call_count (ir : ForthIR) : Nat :=
  (call_names ir.main).length + (ir.words.map (fun w => (call_names w.instructions).length)).sum

/-- Number of `Call` instructions naming `name` anywhere in the program. -/
def ForthIR.calls_to (ir : ForthIR) (name : String) : Nat :=
  ((call_names ir.main).filter (fun n => n == name)).length
    + (ir.words.map (fun w => ((call_names w.instructions).filter (fun n => n == name)).length)).sum

/-- First word definition with the given name. -/
def lookup_word (words : List WordDef) (name : String) : Option WordDef :=
  words.find? (fun w => w.name == name)

/-- Modelled from the spec: the call graph (section 4.2; `analysis.rs` or its
equivalent is absent from `src/`): one entry per word, each holding (callee,
accumulated call-site count) edges in first-occurrence order. -/
structure CallGraph where
  edges : List (String × List (String × Nat))

/-- Accumulate one call site into an edge list: bump an existing edge's count
or append a new edge. -/
def add_callee : List (String × Nat) → String → List (String × Nat)
  | [], callee => [(callee, 1)]
  | (n, k) :: rest, callee =>
    if n = callee then (n, k + 1) :: rest else (n, k) :: add_callee rest callee

/-- Modelled from the spec: `CallGraph::build` - scan every word's
instruction list recursively for call instructions, accumulating edge
counts. -/
def CallGraph.build (ir : ForthIR) : CallGraph :=
  { edges := ir.words.map (fun w => (w.name, (call_names w.instructions).foldl add_callee [])) }

/-- Modelled from the spec: "callees of X" (ordered, duplicates removed). -/
def CallGraph.get_callees (g : CallGraph) (name : String) : List String :=
  match g.edges.find? (fun e => e.1 == name) with
  | some e => e.2.map Prod.fst
  | none => []

/-- Modelled from the spec: "call count from X to Y" (0 if no edge). -/
def CallGraph.get_call_count (g : CallGraph) (caller callee : String) : Nat :=
  match (g.get_callees caller, (g.edges.find? (fun e => e.1 == caller))) with
  | (_, some e) =>
    match e.2.find? (fun p => p.1 == callee) with
    | some p => p.2
    | none => 0
  | (_, none) => 0

/-- The participating word names of a detected cycle: the portion of the
active DFS stack (most recent first) back to the revisited name. -/
def cycle_of (active : List String) (callee : String) : List String :=
  active.takeWhile (fun n => n != callee) ++ [callee]

/-- Modelled from the spec: depth-first traversal tracking the active
recursion stack; a back-edge to a name on the stack reports a cycle.  The
fuel is an upper bound on the traversal depth; `find_cycles` passes one more
than the number of words, which the active-stack guard can never exceed. -/
def CallGraph.cycles_from (g : CallGraph) : Nat → List String → String → List (List String)
  | 0, _, _ => []
  | fuel + 1, active, node =>
    (g.get_callees node).flatMap (fun callee =>
      if callee ∈ active then [cycle_of active callee]
      else g.cycles_from fuel (callee :: active) callee)

/-- Modelled from the spec: `CallGraph::find_cycles` - run the DFS from every
word, reporting each distinct cycle. -/
def CallGraph.find_cycles (g : CallGraph) : List (List String) :=
  ((g.edges.map Prod.fst).flatMap
    (fun w => g.cycles_from (g.edges.length + 1) [w] w)).eraseDups

/-- Modelled from the spec: per-level instruction-count threshold for
cost-based inlining ("concrete thresholds are a tuning choice"); `none` means
unbounded (Aggressive). -/
def inline_threshold : OptimizationLevel → Option Nat
  | .None => some 0
  | .Basic => some 2
  | .Standard => some 8
  | .Aggressive => none

/-- Modelled from the spec: per-level chain-depth bound; Basic expands one
level only, Standard a bounded chain, Aggressive enough for any chain of
distinct words. -/
def chain_depth (ir : ForthIR) : OptimizationLevel → Nat
  | .None => 0
  | .Basic => 1
  | .Standard => 4
  | .Aggressive => ir.words.length + 1

/-- Modelled from the spec: a callee satisfies the level's policy when its
`is_inline` flag is set (forced, regardless of size, at every level) or its
instruction count is within the level's threshold. -/
def eligible (level : OptimizationLevel) (w : WordDef) : Bool :=
  w.is_inline ||
    (match inline_threshold level with
     | none => true
     | some t => instr_count w.instructions ≤ t)

/-- Modelled from the spec: the substitution loop of the inliner (section
4.3; `inline.rs` is absent from `src/`).  Each `Call` whose callee exists, is
not on the active expansion stack (the cycle guard) and satisfies the level
policy is replaced by its recursively processed body; everything else is
copied.  `fuel` is the chain-depth bound. -/
def inline_seq (words : List WordDef) (level : OptimizationLevel) :
    Nat → List String → List Instruction → List Instruction
  | _, _, [] => []
  | fuel, active, .Call name :: rest =>
    (match lookup_word words name with
     | some w =>
       match fuel with
       | fuel2 + 1 =>
         if !(active.contains name) && eligible level w then
           inline_seq words level fuel2 (name :: active) w.instructions
             ++ inline_seq words level (fuel2 + 1) active rest
         else
           .Call name :: inline_seq words level (fuel2 + 1) active rest
       | 0 => .Call name :: inline_seq words level 0 active rest
     | none => .Call name :: inline_seq words level fuel active rest)
  | fuel, active, .IfThen body :: rest =>
    .IfThen (inline_seq words level fuel active body)
      :: inline_seq words level fuel active rest
  | fuel, active, i :: rest => i :: inline_seq words level fuel active rest
termination_by fuel _ l => (fuel, sizeOf l)

/-- True when some `Call` (in `main` or any word body) names a word absent
from the program - the structural violation of spec section 4.3. -/
def ForthIR.dangling_call (ir : ForthIR) : Bool :=
  (call_names ir.main ++ ir.words.flatMap (fun w => call_names w.instructions)).any
    (fun n => (lookup_word ir.words n).isNone)

/-- Modelled from the spec: `AggressiveInlineOptimizer::inline` - at level
None the input is returned unchanged; a dangling call target signals
OptimizationFailed; otherwise the top-level sequence is rewritten by
`inline_seq` (word definitions are not rewritten; preserved recursive calls
keep their definitions reachable). -/
def AggressiveInlineOptimizer.inline (level : OptimizationLevel) (ir : ForthIR) :
    Except OptimizerError ForthIR :=
  if level = OptimizationLevel.None then .ok ir
  else if ir.dangling_call then .error (.OptimizationFailed "call to undefined word")
  else .ok { ir with main := inline_seq ir.words level (chain_depth ir level) [] ir.main }

/-- Modelled from the spec: `ForthIR::verify` lives in the absent `ir.rs`; it
re-checks stack effects after optimization.  No claim verified here reaches
it (level None returns before it), and the spec does not describe a failure
mode for it, so it is the trivial check. -/
def ForthIR.verify (_ir : ForthIR) : Except OptimizerError Unit := .ok ()

/-- The `Optimizer` struct of `src/optimizer/src/lib.rs`.  The pass objects
it owns are embedded as their `ForthIR → Result` behaviours, since the pass
sources are absent from `src/`; the driver logic below is from `lib.rs`
itself. -/
structure Optimizer where
  level : OptimizationLevel
  stack_cache : ForthIR → Except OptimizerError ForthIR
  superinstructions : ForthIR → Except OptimizerError ForthIR
  constant_fold : ForthIR → Except OptimizerError ForthIR
  dead_code : ForthIR → Except OptimizerError ForthIR
  inline : ForthIR → Except OptimizerError ForthIR

/-- `Optimizer::new`.  Modelled from the spec: the four excluded single-pass
collaborators (constant folding, dead code, superinstructions, stack caching)
are out of the specified subsystems and are embedded as identity passes; the
inline pass is the spec-modelled inliner at the given level. -/
def Optimizer.new (level : OptimizationLevel) : Optimizer :=
  { level := level
    stack_cache := fun ir => .ok ir
    superinstructions := fun ir => .ok ir
    constant_fold := fun ir => .ok ir
    dead_code := fun ir => .ok ir
    inline := AggressiveInlineOptimizer.inline level }

/-- `Optimizer::optimize` (src/optimizer/src/lib.rs lines 103-133): return
the input unchanged at level None, otherwise run the pass pipeline with its
level gates. -/
def Optimizer.optimize (o : Optimizer) (ir : ForthIR) : Except OptimizerError ForthIR :=
  if o.level = OptimizationLevel.None then .ok ir
  else
    match o.constant_fold ir with
    | .error e => .error e
    | .ok ir =>
      match (if OptimizationLevel.Standard ≤ o.level then o.inline ir else .ok ir) with
      | .error e => .error e
      | .ok ir =>
        match (if OptimizationLevel.Basic ≤ o.level then o.superinstructions ir else .ok ir) with
        | .error e => .error e
        | .ok ir =>
          match o.dead_code ir with
          | .error e => .error e
          | .ok ir =>
            match (if OptimizationLevel.Standard ≤ o.level then o.stack_cache ir else .ok ir) with
            | .error e => .error e
            | .ok ir =>
              match ir.verify with
              | .error e => .error e
              | .ok _ => .ok ir

/-! ## Claim C4: level None is the identity transformation -/

/-- C4: for every optimizer whose level is `None` and every input IR,
`optimize` returns the input unchanged, so instruction count and call count
are identical before and after.  This holds for arbitrary pass behaviours
because `Optimizer::optimize` returns before invoking any pass. -/
theorem optimize_none_identity (o : Optimizer) (ir : ForthIR)
    (h : o.level = OptimizationLevel.None) :
    o.optimize ir = .ok ir ∧
    (o.optimize ir).toOption.map ForthIR.instruction_count = some ir.instruction_count ∧
    (o.optimize ir).toOption.map ForthIR.call_count = some ir.call_count := by
  have hid : o.optimize ir = .ok ir := by
    simp [Optimizer.optimize, h]
  exact ⟨hid, by rw [hid]; rfl, by rw [hid]; rfl⟩

/-- The IR of spec section 8's Basic-level example, used as a concrete
input for several optimizer claims. -/
def double_ir : ForthIR :=
  { words := [WordDef.new "double" [.Literal 2, .Mul]]
    main := [.Literal 5, .Call "double", .Call "double", .Literal 1, .Add] }

/-- Witness for C4 at a concrete optimizer and program. -/
theorem optimize_none_identity_witness :
    (Optimizer.new OptimizationLevel.None).optimize double_ir = .ok double_ir ∧
    ((Optimizer.new OptimizationLevel.None).optimize double_ir).toOption.map
      ForthIR.instruction_count = some double_ir.instruction_count ∧
    ((Optimizer.new OptimizationLevel.None).optimize double_ir).toOption.map
      ForthIR.call_count = some double_ir.call_count :=
  optimize_none_identity (Optimizer.new OptimizationLevel.None) double_ir rfl

/-! ## Claim C5: force-inline of `is_inline` words -/

/-- A nine-instruction word flagged `is_inline`, after
`pattern_forced_inline` in `AGGRESSIVE_INLINE_USAGE_EXAMPLE.rs`. -/
def big_word : WordDef :=
  { name := "big"
    instructions := [.Dup, .Dup, .Mul, .Dup, .Mul, .Dup, .Mul, .Add, .Add]
    is_inline := true }

/-- A program whose main sequence calls the `is_inline` word once. -/
def big_ir : ForthIR :=
  { words := [big_word], main := [.Literal 5, .Call "big"] }

/-- C5 counterexample: the claim quantifies over every level including `None`
and `Basic`, but at level `None` the optimizer returns its input unchanged
(src/optimizer/src/lib.rs line 104) and at level `Basic` the inline pass is
gated out by `level >= Standard` (line 112), so the single call to the
`is_inline` word `big` survives both. -/
theorem is_inline_not_inlined_below_standard :
    big_word.is_inline = true ∧
    (Optimizer.new OptimizationLevel.None).optimize big_ir = .ok big_ir ∧
    (Optimizer.new OptimizationLevel.Basic).optimize big_ir = .ok big_ir ∧
    big_ir.calls_to "big" = 1 := by
  refine ⟨rfl, rfl, rfl, ?_⟩
  simp [ForthIR.calls_to, call_names, big_ir, big_word, flatten_list, Instruction.flatten]

/-- C5 (amended): at the levels where the driver runs the inline pass
(`Standard` and `Aggressive`, by the `level >= Standard` gate), every call
the inliner encounters whose callee exists, is flagged `is_inline` and is not
blocked by the active-stack cycle guard is substituted by the callee's
(recursively processed) body, regardless of the callee's instruction count.
The equation holds for every level of the standalone inliner, since the
`is_inline` test short-circuits the size threshold. -/
theorem is_inline_call_inlined (words : List WordDef) (level : OptimizationLevel)
    (fuel : Nat) (active : List String) (name : String) (w : WordDef)
    (rest : List Instruction)
    (hw : lookup_word words name = some w) (hinl : w.is_inline = true)
    (hact : name ∉ active) :
    inline_seq words level (fuel + 1) active (.Call name :: rest) =
      inline_seq words level fuel (name :: active) w.instructions
        ++ inline_seq words level (fuel + 1) active rest := by
  simp [inline_seq, hw, eligible, hinl, hact]

/-- Witness for the amended C5: the oversized `is_inline` word `big` is
substituted at level `Standard`. -/
theorem is_inline_call_inlined_witness :
    inline_seq [big_word] OptimizationLevel.Standard 1 [] [.Call "big"] =
      inline_seq [big_word] OptimizationLevel.Standard 0 ["big"] big_word.instructions
        ++ inline_seq [big_word] OptimizationLevel.Standard 1 [] [] :=
  is_inline_call_inlined [big_word] OptimizationLevel.Standard 0 [] "big" big_word []
    rfl rfl (by simp)

/-! ## Claim C3: cycle detection and recursion preservation for `fact` -/

/-- The word `fact`, the flat IR of `: fact dup 1 > if dup 1 - fact * then ;`
(a direct self-call inside the IF body). -/
def fact_word : WordDef :=
  WordDef.new "fact"
    [.Dup, .Literal 1, .Gt, .IfThen [.Dup, .Literal 1, .Sub, .Call "fact", .Mul]]

/-- The program whose only definition is `fact`; the top-level sequence is
`5 fact` as in `example_cycle_detection`. -/
def fact_ir : ForthIR :=
  { words := [fact_word], main := [.Literal 5, .Call "fact"] }

/-- C3: cycle detection on the `fact` program reports exactly one cycle, the
single-element set containing "fact", and Aggressive inlining leaves at least
one `Call` naming "fact" in the optimized output (the recursive call is
preserved by the active-stack cycle guard). -/
theorem fact_cycle_detected_and_preserved :
    (CallGraph.build fact_ir).find_cycles = [["fact"]] ∧
    ∃ out, AggressiveInlineOptimizer.inline OptimizationLevel.Aggressive fact_ir = .ok out ∧
      1 ≤ out.calls_to "fact" := by
  constructor
  · have hg : CallGraph.build fact_ir = ⟨[("fact", [("fact", 1)])]⟩ := by
      simp [CallGraph.build, fact_ir, fact_word, WordDef.new, call_names,
        flatten_list, Instruction.flatten, add_callee]
    rw [hg]
    rfl
  · have hout : AggressiveInlineOptimizer.inline OptimizationLevel.Aggressive fact_ir =
        .ok { words := [fact_word]
              main := [.Literal 5, .Dup, .Literal 1, .Gt,
                       .IfThen [.Dup, .Literal 1, .Sub, .Call "fact", .Mul]] } := by
      simp [AggressiveInlineOptimizer.inline, fact_ir, fact_word, WordDef.new,
        ForthIR.dangling_call, call_names, flatten_list, Instruction.flatten,
        lookup_word, inline_seq, chain_depth, eligible, inline_threshold]
    refine ⟨_, hout, ?_⟩
    simp [ForthIR.calls_to, call_names, flatten_list, Instruction.flatten,
      fact_word, WordDef.new]

/-! ## Claim C6: stack underflow is reported, with word and counts -/

/-- C6: whenever a construct needs more simulated-stack values than are
present, translation fails with a `StackUnderflow` naming the offending
operator (binary/unary operators are named by their `Display` form, e.g.
"add" for `+`), the required count and the available count; and the error
propagates out of the enclosing sequence, so no further word of the
definition is translated. -/
theorem stack_underflow_reported :
    (∀ (c : SSAConverter) (op : BinaryOperator) (stack : List Register),
        stack.length < 2 →
        c.convert_binary_op op stack = .error (.StackUnderflow op.display 2 stack.length)) ∧
    (∀ (c : SSAConverter) (op : UnaryOperator),
        c.convert_unary_op op [] = .error (.StackUnderflow op.display 1 0)) ∧
    (∀ (c : SSAConverter) (tb : List Word) (eb : Option (List Word)),
        c.convert_if tb eb [] = .error (.StackUnderflow "IF" 1 0)) ∧
    (∀ (c : SSAConverter) (body : List Word) (stack : List Register),
        stack.length < 2 →
        c.convert_do_loop body stack = .error (.StackUnderflow "DO" 2 stack.length)) ∧
    (∀ (c : SSAConverter), c.convert_word_call "dup" [] = .error (.StackUnderflow "dup" 1 0)) ∧
    (∀ (c : SSAConverter) (w : Word) (ws : List Word) (stack : List Register) (e : ForthError),
        c.convert_word w stack = .error e →
        c.convert_sequence (w :: ws) stack = .error e) := by
  refine ⟨?_, ?_, ?_, ?_, ?_, ?_⟩
  · intro c op stack h
    match stack with
    | [] => rfl
    | [r] => rfl
    | _ :: _ :: _ => simp at h; omega
  · intro c op
    rfl
  · intro c tb eb
    simp [SSAConverter.convert_if]
  · intro c body stack h
    match stack with
    | [] => simp [SSAConverter.convert_do_loop]
    | [r] => simp [SSAConverter.convert_do_loop]
    | _ :: _ :: _ => simp at h; omega
  · intro c
    rfl
  · intro c w ws stack e h
    simp [SSAConverter.convert_sequence, h]

/-- Witness for C6 at concrete converters and inputs. -/
theorem stack_underflow_reported_witness :
    SSAConverter.new.convert_binary_op .Add [] = .error (.StackUnderflow "add" 2 0) ∧
    SSAConverter.new.convert_unary_op .Not [] = .error (.StackUnderflow "not" 1 0) ∧
    SSAConverter.new.convert_if [] none [] = .error (.StackUnderflow "IF" 1 0) ∧
    SSAConverter.new.convert_do_loop [] [⟨0⟩] = .error (.StackUnderflow "DO" 2 1) ∧
    SSAConverter.new.convert_word_call "dup" [] = .error (.StackUnderflow "dup" 1 0) ∧
    SSAConverter.new.convert_sequence [.WordRef "+", .IntLiteral 3] [] =
      .error (.StackUnderflow "add" 2 0) := by
  refine ⟨?_, ?_, ?_, ?_, ?_, ?_⟩
  · simpa [BinaryOperator.display] using
      stack_underflow_reported.1 SSAConverter.new .Add [] (by simp)
  · simpa [UnaryOperator.display] using
      stack_underflow_reported.2.1 SSAConverter.new .Not
  · exact stack_underflow_reported.2.2.1 SSAConverter.new [] none
  · simpa using
      stack_underflow_reported.2.2.2.1 SSAConverter.new [] [⟨0⟩] (by simp)
  · exact stack_underflow_reported.2.2.2.2.1 SSAConverter.new
  · exact stack_underflow_reported.2.2.2.2.2 SSAConverter.new (.WordRef "+") [.IntLiteral 3] [] _
      (by simp [SSAConverter.convert_word, SSAConverter.convert_word_call,
         SSAConverter.convert_binary_op, BinaryOperator.display])

/-! ## Claim C9: emission into a missing current block is silently dropped -/

/-- Helper: `emit_into` is the identity when no block in the list carries the
target id. -/
theorem emit_into_no_match (target : BlockId) (i : SSAInstruction) :
    ∀ bs : List BasicBlock, (∀ b ∈ bs, b.id ≠ target) → emit_into target i bs = bs := by
  intro bs
  induction bs with
  | nil => intro _; rfl
  | cons b rest ih =>
    intro h
    have hb : b.id ≠ target := h b (by simp)
    simp [emit_into, hb]
    exact ih (fun x hx => h x (by simp [hx]))

/-- C9: when the current-block cursor names no block in the block list,
`emit` silently changes nothing; consequently `convert_sequence` on a freshly
constructed converter (empty block list, cursor at block 0) returns `Ok` on
instruction-emitting inputs (a sequence of integer literals) while producing
no instructions at all - the block list stays empty. -/
theorem emit_without_current_block_discards :
    (∀ (c : SSAConverter) (i : SSAInstruction),
        (∀ b ∈ c.blocks, b.id ≠ c.current_block) → c.emit i = c) ∧
    (∀ (values : List Int) (stack : List Register) (c : SSAConverter),
        c.blocks = [] →
        ∃ c2 stack2,
          c.convert_sequence (values.map Word.IntLiteral) stack = .ok (c2, stack2) ∧
          c2.blocks = []) := by
  constructor
  · intro c i h
    show { c with blocks := emit_into c.current_block i c.blocks } = c
    rw [emit_into_no_match c.current_block i c.blocks h]
  · intro values
    induction values with
    | nil =>
      intro stack c h
      exact ⟨c, stack, by simp [SSAConverter.convert_sequence], h⟩
    | cons v vs ih =>
      intro stack c h
      have hstep : c.convert_word (.IntLiteral v) stack =
          .ok ({ c with next_register := c.next_register + 1, blocks := [] },
               ⟨c.next_register⟩ :: stack) := by
        simp [SSAConverter.convert_word, SSAConverter.fresh_register, SSAConverter.emit, h,
          emit_into]
      have := ih (⟨c.next_register⟩ :: stack)
        { c with next_register := c.next_register + 1, blocks := [] } rfl
      obtain ⟨c2, stack2, hrec, hb⟩ := this
      refine ⟨c2, stack2, ?_, hb⟩
      simp [SSAConverter.convert_sequence, hstep, hrec]

/-- Witness for C9: the fresh converter silently drops a `LoadInt`, and
converting the literal sequence `5 7` from a fresh converter succeeds with an
empty block list. -/
theorem emit_without_current_block_discards_witness :
    (SSAConverter.new.emit (.LoadInt ⟨0⟩ 5) = SSAConverter.new) ∧
    ∃ c2 stack2,
      SSAConverter.new.convert_sequence
        (([5, 7] : List Int).map Word.IntLiteral) [] = .ok (c2, stack2) ∧
      c2.blocks = [] :=
  ⟨emit_without_current_block_discards.1 SSAConverter.new (.LoadInt ⟨0⟩ 5) (by simp [SSAConverter.new]),
   emit_without_current_block_discards.2 [5, 7] [] SSAConverter.new rfl⟩

/-! ## Claim C7: shape of BEGIN...UNTIL translation -/

/-- C7: every successfully translated BEGIN...UNTIL construct arises as
follows: a loop block and an exit block are allocated, an unconditional jump
into the loop block is emitted, the body is translated there from the
pre-loop simulated stack, the loop-exit condition register is popped from the
body's resulting stack, a conditional branch with false target the loop
block and true target the exit block is emitted, and emission resumes in the
exit block with the body's resulting stack after the condition pop. -/
theorem convert_begin_until_shape (c0 c2 : SSAConverter) (body : List Word)
    (stack out : List Register)
    (h : c0.convert_begin_until body stack = .ok (c2, out)) :
    ∃ (cB : SSAConverter) (condition : Register) (loop_stack : List Register),
      (let loop_block := c0.create_block.2
       let c1 := c0.create_block.1
       let exit_block := c1.create_block.2
       let cx := c1.create_block.1
       let centry := (cx.emit (.Jump loop_block)).set_current_block loop_block
       centry.convert_sequence body stack = .ok (cB, condition :: loop_stack) ∧
       c2 = (cB.emit (.Branch condition exit_block loop_block)).set_current_block exit_block ∧
       out = loop_stack) := by
  rw [SSAConverter.convert_begin_until.eq_def] at h
  dsimp only at h ⊢
  generalize hseq : ((c0.create_block.1.create_block.1.emit
      (SSAInstruction.Jump c0.create_block.2)).set_current_block
      c0.create_block.2).convert_sequence body stack = res at h ⊢
  rcases res with e | ⟨cB, ls0⟩
  · exact absurd h (by simp)
  · rcases ls0 with _ | ⟨condition, ls⟩
    · exact absurd h (by simp)
    · dsimp only at h
      simp only [Except.ok.injEq, Prod.mk.injEq] at h
      exact ⟨cB, condition, ls, rfl, h.1.symm, h.2.symm⟩

/-- Witness for C7 on the empty body with stack `[r7]`. -/
theorem convert_begin_until_shape_witness :
    ∃ (cB : SSAConverter) (condition : Register) (loop_stack : List Register),
      (let loop_block := SSAConverter.new.create_block.2
       let c1 := SSAConverter.new.create_block.1
       let exit_block := c1.create_block.2
       let cx := c1.create_block.1
       let centry := (cx.emit (.Jump loop_block)).set_current_block loop_block
       centry.convert_sequence [] [⟨7⟩] = .ok (cB, condition :: loop_stack) ∧
       ({ next_register := 0, next_block := 2, current_block := ⟨1⟩,
          blocks := [⟨⟨0⟩, [.Jump ⟨0⟩, .Branch ⟨7⟩ ⟨1⟩ ⟨0⟩], []⟩, ⟨⟨1⟩, [], []⟩] } : SSAConverter) =
         (cB.emit (.Branch condition exit_block loop_block)).set_current_block exit_block ∧
       ([] : List Register) = loop_stack) :=
  convert_begin_until_shape SSAConverter.new _ [] [⟨7⟩] []
    (by simp [SSAConverter.convert_begin_until, SSAConverter.create_block,
      SSAConverter.fresh_block, SSAConverter.emit, SSAConverter.set_current_block,
      SSAConverter.convert_sequence, SSAConverter.new, emit_into, BasicBlock.new])

/-! ## Claim C8: shape of DO...LOOP translation -/

/-- C8: a DO...LOOP requires at least two simulated-stack items (failing with
`StackUnderflow` naming "DO" with required count 2 otherwise) and pops both
bounds; on success, a loop block and an exit block are allocated, an
unconditional jump into the loop block is emitted, the body is translated
there, and the only terminator emitted after the body is a single
unconditional jump to the exit block - no conditional back edge on a loop
counter exists, as the final converter is exactly the body's converter plus
that one jump. -/
theorem convert_do_loop_shape :
    (∀ (c : SSAConverter) (body : List Word) (stack : List Register),
        stack.length < 2 →
        c.convert_do_loop body stack = .error (.StackUnderflow "DO" 2 stack.length)) ∧
    (∀ (c0 c2 : SSAConverter) (body : List Word) (a b : Register) (rest out : List Register),
        c0.convert_do_loop body (a :: b :: rest) = .ok (c2, out) →
        ∃ (cB : SSAConverter) (loop_stack : List Register),
          (let loop_block := c0.create_block.2
           let c1 := c0.create_block.1
           let exit_block := c1.create_block.2
           let cx := c1.create_block.1
           let centry := (cx.emit (.Jump loop_block)).set_current_block loop_block
           centry.convert_sequence body rest = .ok (cB, loop_stack) ∧
           c2 = (cB.emit (.Jump exit_block)).set_current_block exit_block ∧
           out = loop_stack)) := by
  constructor
  · intro c body stack h
    match stack with
    | [] => simp [SSAConverter.convert_do_loop]
    | [r] => simp [SSAConverter.convert_do_loop]
    | _ :: _ :: _ => simp at h; omega
  · intro c0 c2 body a b rest out h
    rw [SSAConverter.convert_do_loop.eq_def] at h
    dsimp only at h ⊢
    generalize hseq : ((c0.create_block.1.create_block.1.emit
        (SSAInstruction.Jump c0.create_block.2)).set_current_block
        c0.create_block.2).convert_sequence body rest = res at h ⊢
    rcases res with e | ⟨cB, ls⟩
    · exact absurd h (by simp)
    · dsimp only at h
      simp only [Except.ok.injEq, Prod.mk.injEq] at h
      exact ⟨cB, ls, rfl, h.1.symm, h.2.symm⟩

/-- Witness for C8 on the empty body with stack `[r1, r2]`. -/
theorem convert_do_loop_shape_witness :
    (SSAConverter.new.convert_do_loop [] [⟨1⟩] = .error (.StackUnderflow "DO" 2 1)) ∧
    ∃ (cB : SSAConverter) (loop_stack : List Register),
      (let loop_block := SSAConverter.new.create_block.2
       let c1 := SSAConverter.new.create_block.1
       let exit_block := c1.create_block.2
       let cx := c1.create_block.1
       let centry := (cx.emit (.Jump loop_block)).set_current_block loop_block
       centry.convert_sequence [] [] = .ok (cB, loop_stack) ∧
       ({ next_register := 0, next_block := 2, current_block := ⟨1⟩,
          blocks := [⟨⟨0⟩, [.Jump ⟨0⟩, .Jump ⟨1⟩], []⟩, ⟨⟨1⟩, [], []⟩] } : SSAConverter) =
         (cB.emit (.Jump exit_block)).set_current_block exit_block ∧
       ([] : List Register) = loop_stack) := by
  constructor
  · simpa using convert_do_loop_shape.1 SSAConverter.new [] [⟨1⟩] (by simp)
  · exact convert_do_loop_shape.2 SSAConverter.new _ [] ⟨1⟩ ⟨2⟩ [] []
      (by simp [SSAConverter.convert_do_loop, SSAConverter.create_block,
        SSAConverter.fresh_block, SSAConverter.emit, SSAConverter.set_current_block,
        SSAConverter.convert_sequence, SSAConverter.new, emit_into, BasicBlock.new])

/-! ## Claim C1: shape of IF / IF-ELSE translation -/

/-- C1: every successfully translated IF (or IF-ELSE) arises as follows: the
condition register is popped; then/merge blocks (and an else block when an
else-branch exists, otherwise the false edge targets merge directly) are
allocated and the conditional branch is emitted; the then-branch is
translated starting from `pre`, an independent clone of the pre-branch stack
after the pop, and a jump to the merge block is emitted after it; when
present, the else-branch is translated from another independent clone `pre`
of the same stack, also followed by a jump to merge; emission resumes in the
merge block, and the post-merge simulated stack is exactly the then-branch's
resulting stack. -/
theorem convert_if_shape (c0 c2 : SSAConverter) (tb : List Word)
    (eb : Option (List Word)) (cond : Register) (pre out : List Register)
    (h : c0.convert_if tb eb (cond :: pre) = .ok (c2, out)) :
    ∃ (cT : SSAConverter) (then_stack : List Register),
      (let then_block := c0.create_block.2
       let c1 := c0.create_block.1
       let merge_block := c1.create_block.2
       let cm := c1.create_block.1
       let else_block := (pick_else_block cm eb merge_block).2
       let ce := (pick_else_block cm eb merge_block).1
       let centry := (ce.emit (.Branch cond then_block else_block)).set_current_block then_block
       centry.convert_sequence tb pre = .ok (cT, then_stack) ∧
       out = then_stack ∧
       c2.current_block = merge_block ∧
       (eb = none → c2 = (cT.emit (.Jump merge_block)).set_current_block merge_block) ∧
       (∀ else_words, eb = some else_words →
         ∃ (cE : SSAConverter) (else_stack : List Register),
           ((cT.emit (.Jump merge_block)).set_current_block else_block).convert_sequence
             else_words pre = .ok (cE, else_stack) ∧
           c2 = (cE.emit (.Jump merge_block)).set_current_block merge_block)) := by
  cases eb with
  | none =>
    rw [SSAConverter.convert_if.eq_def] at h
    dsimp only [pick_else_block] at h ⊢
    generalize hseq : ((c0.create_block.1.create_block.1.emit
        (SSAInstruction.Branch cond c0.create_block.2
          c0.create_block.1.create_block.2)).set_current_block
        c0.create_block.2).convert_sequence tb pre = res at h ⊢
    rcases res with e | ⟨cT, ts⟩
    · exact absurd h (by simp)
    · dsimp only at h
      rw [SSAConverter.convert_if_else.eq_def] at h
      dsimp only at h
      simp only [Except.ok.injEq, Prod.mk.injEq] at h
      refine ⟨cT, ts, rfl, h.2.symm, ?_, ?_, ?_⟩
      · rw [← h.1]
        rfl
      · intro _
        exact h.1.symm
      · intro ew hcontra
        exact absurd hcontra (by simp)
  | some ews =>
    rw [SSAConverter.convert_if.eq_def] at h
    dsimp only [pick_else_block] at h ⊢
    generalize hseq : ((c0.create_block.1.create_block.1.create_block.1.emit
        (SSAInstruction.Branch cond c0.create_block.2
          c0.create_block.1.create_block.1.create_block.2)).set_current_block
        c0.create_block.2).convert_sequence tb pre = res at h ⊢
    rcases res with e | ⟨cT, ts⟩
    · exact absurd h (by simp)
    · dsimp only at h
      rw [SSAConverter.convert_if_else.eq_def] at h
      dsimp only at h
      generalize hseq2 : (((cT.emit
          (SSAInstruction.Jump c0.create_block.1.create_block.2)).set_current_block
          (c0.create_block.1.create_block.1.create_block.2)).convert_sequence
          ews pre) = res2 at h ⊢
      rcases res2 with e | ⟨cE, ds⟩
      · exact absurd h (by simp)
      · dsimp only at h
        simp only [Except.ok.injEq, Prod.mk.injEq] at h
        refine ⟨cT, ts, rfl, h.2.symm, ?_, ?_, ?_⟩
        · rw [← h.1]
          rfl
        · intro hcontra
          exact absurd hcontra (by simp)
        · intro ew hew
          cases hew
          exact ⟨cE, ds, hseq2, h.1.symm⟩

/-- Witness for C1 on an empty then-branch with no else, condition `r5`. -/
theorem convert_if_shape_witness :
    ∃ (cT : SSAConverter) (then_stack : List Register),
      (let then_block := SSAConverter.new.create_block.2
       let c1 := SSAConverter.new.create_block.1
       let merge_block := c1.create_block.2
       let cm := c1.create_block.1
       let else_block := (pick_else_block cm none merge_block).2
       let ce := (pick_else_block cm none merge_block).1
       let centry := (ce.emit (.Branch ⟨5⟩ then_block else_block)).set_current_block then_block
       centry.convert_sequence [] [] = .ok (cT, then_stack) ∧
       ([] : List Register) = then_stack ∧
       SSAConverter.current_block
         { next_register := 0, next_block := 2, current_block := ⟨1⟩,
           blocks := [⟨⟨0⟩, [.Branch ⟨5⟩ ⟨0⟩ ⟨1⟩, .Jump ⟨1⟩], []⟩, ⟨⟨1⟩, [], []⟩] } = merge_block ∧
       ((none : Option (List Word)) = none →
         ({ next_register := 0, next_block := 2, current_block := ⟨1⟩,
            blocks := [⟨⟨0⟩, [.Branch ⟨5⟩ ⟨0⟩ ⟨1⟩, .Jump ⟨1⟩], []⟩, ⟨⟨1⟩, [], []⟩] } : SSAConverter) =
           (cT.emit (.Jump merge_block)).set_current_block merge_block) ∧
       (∀ else_words, (none : Option (List Word)) = some else_words →
         ∃ (cE : SSAConverter) (else_stack : List Register),
           ((cT.emit (.Jump merge_block)).set_current_block else_block).convert_sequence
             else_words [] = .ok (cE, else_stack) ∧
           ({ next_register := 0, next_block := 2, current_block := ⟨1⟩,
              blocks := [⟨⟨0⟩, [.Branch ⟨5⟩ ⟨0⟩ ⟨1⟩, .Jump ⟨1⟩], []⟩, ⟨⟨1⟩, [], []⟩] } : SSAConverter) =
             (cE.emit (.Jump merge_block)).set_current_block merge_block)) :=
  convert_if_shape SSAConverter.new _ [] none ⟨5⟩ [] []
    (by simp [SSAConverter.convert_if, SSAConverter.convert_if_else, pick_else_block,
      SSAConverter.create_block, SSAConverter.fresh_block, SSAConverter.emit,
      SSAConverter.set_current_block, SSAConverter.convert_sequence, SSAConverter.new,
      emit_into, BasicBlock.new])

/-! ## Invariant machinery for C2 and C10

`conv_ok c r` packages the two inductive facts needed: a failing conversion
step only ever reports a `StackUnderflow`, and a succeeding one only extends
the block list (the identifiers of the blocks already present survive as a
prefix). -/

/-- The block identifiers of a converter, in block-list order. -/
def block_ids (c : SSAConverter) : List BlockId :=
  c.blocks.map (fun b => b.id)

/-- Every error value produced is a `StackUnderflow`. -/
def underflow_only {α : Type} : Except ForthError α → Prop
  | .error (ForthError.StackUnderflow _ _ _) => True
  | .error _ => False
  | .ok _ => True

/-- Step invariant for the converter functions returning converter plus
stack. -/
def conv_ok (c : SSAConverter) (r : Except ForthError (SSAConverter × List Register)) : Prop :=
  underflow_only r ∧ ∀ c2 st2, r = .ok (c2, st2) → block_ids c <+: block_ids c2

/-- Step invariant for `convert_if_else`, which returns only a converter. -/
def conv_ok1 (c : SSAConverter) (r : Except ForthError SSAConverter) : Prop :=
  underflow_only r ∧ ∀ c2, r = .ok c2 → block_ids c <+: block_ids c2

theorem emit_into_ids (t : BlockId) (i : SSAInstruction) :
    ∀ bs : List BasicBlock, (emit_into t i bs).map (fun b => b.id) = bs.map (fun b => b.id) := by
  intro bs
  induction bs with
  | nil => rfl
  | cons b rest ih =>
    by_cases hb : b.id = t
    · simp [emit_into, hb]
    · simp [emit_into, hb, ih]

theorem emit_ids (c : SSAConverter) (i : SSAInstruction) :
    block_ids (c.emit i) = block_ids c :=
  emit_into_ids c.current_block i c.blocks

theorem create_block_ids (c : SSAConverter) :
    block_ids (c.create_block).1 = block_ids c ++ [⟨c.next_block⟩] := by
  simp [block_ids, SSAConverter.create_block, SSAConverter.fresh_block, BasicBlock.new]

theorem create_block_extends (c : SSAConverter) :
    block_ids c <+: block_ids (c.create_block).1 := by
  rw [create_block_ids]
  exact List.prefix_append _ _

theorem pick_else_block_extends (c : SSAConverter) (eb : Option (List Word)) (m : BlockId) :
    block_ids c <+: block_ids (pick_else_block c eb m).1 := by
  cases eb with
  | none => exact List.prefix_rfl
  | some _ => exact create_block_extends c

theorem conv_ok_error (c : SSAConverter) (w : String) (a b : Nat) :
    conv_ok c (.error (.StackUnderflow w a b)) :=
  ⟨trivial, fun _ _ h => by cases h⟩

theorem conv_ok_ids (c c2 : SSAConverter) (st2 : List Register)
    (h : block_ids c2 = block_ids c) : conv_ok c (.ok (c2, st2)) :=
  ⟨trivial, fun c3 st3 he => by
    cases he
    exact h ▸ List.prefix_rfl⟩

theorem conv_ok_mono (c c1 : SSAConverter) (hpre : block_ids c <+: block_ids c1)
    (r : Except ForthError (SSAConverter × List Register)) (h : conv_ok c1 r) :
    conv_ok c r :=
  ⟨h.1, fun c2 st2 he => hpre.trans (h.2 c2 st2 he)⟩

theorem convert_binary_op_step (c : SSAConverter) (op : BinaryOperator)
    (st : List Register) : conv_ok c (c.convert_binary_op op st) := by
  unfold SSAConverter.convert_binary_op
  dsimp only
  split
  · exact conv_ok_ids _ _ _ (emit_ids _ _)
  · exact conv_ok_error _ _ _ _

theorem convert_unary_op_step (c : SSAConverter) (op : UnaryOperator)
    (st : List Register) : conv_ok c (c.convert_unary_op op st) := by
  unfold SSAConverter.convert_unary_op
  dsimp only
  split
  · exact conv_ok_ids _ _ _ (emit_ids _ _)
  · exact conv_ok_error _ _ _ _

theorem convert_word_call_step (c : SSAConverter) (name : String)
    (st : List Register) : conv_ok c (c.convert_word_call name st) := by
  unfold SSAConverter.convert_word_call
  dsimp only
  split
  all_goals first
    | exact convert_binary_op_step _ _ _
    | exact convert_unary_op_step _ _ _
    | exact conv_ok_ids _ _ _ (emit_ids _ _)
    | exact conv_ok_ids _ _ _ rfl
    | exact conv_ok_error _ _ _ _
    | (split
       all_goals first
         | exact conv_ok_ids _ _ _ (emit_ids _ _)
         | exact conv_ok_ids _ _ _ rfl
         | exact conv_ok_error _ _ _ _)

theorem word_sizeOf_pos (w : Word) : 0 < sizeOf w := by
  cases w <;> simp_arith

theorem wlist_sizeOf_pos (l : List Word) : 0 < sizeOf l := by
  cases l <;> simp_arith

theorem wopt_sizeOf_pos (o : Option (List Word)) : 0 < sizeOf o := by
  cases o <;> simp_arith

theorem emit_set_ids (c : SSAConverter) (i : SSAInstruction) (b : BlockId) :
    block_ids ((c.emit i).set_current_block b) = block_ids c :=
  emit_ids c i

theorem conv_ok_error_of (c : SSAConverter) (e : ForthError)
    (h : underflow_only (α := SSAConverter × List Register) (.error e)) :
    conv_ok c (.error e) :=
  ⟨h, fun _ _ hc => by cases hc⟩

theorem underflow_only_error_any {α β : Type} (e : ForthError)
    (h : underflow_only (α := α) (.error e)) :
    underflow_only (α := β) (.error e) := by
  cases e <;> simp_all [underflow_only]

/-- The combined induction: every converter step reports only
`StackUnderflow` on failure and only extends the block-id list on success.
The measure `2 * size + tag` mirrors the lexicographic termination measure of
the mutual definition. -/
theorem conv_step_all : ∀ n : Nat,
    (∀ (ws : List Word) (c : SSAConverter) (st : List Register),
        2 * sizeOf ws < n → conv_ok c (c.convert_sequence ws st)) ∧
    (∀ (w : Word) (c : SSAConverter) (st : List Register),
        2 * sizeOf w + 1 < n → conv_ok c (c.convert_word w st)) ∧
    (∀ (tb : List Word) (eb : Option (List Word)) (c : SSAConverter) (st : List Register),
        2 * (sizeOf tb + sizeOf eb) + 1 < n → conv_ok c (c.convert_if tb eb st)) ∧
    (∀ (eb : Option (List Word)) (c : SSAConverter) (ebk mbk : BlockId) (pre : List Register),
        2 * sizeOf eb + 1 < n → conv_ok1 c (c.convert_if_else eb ebk mbk pre)) ∧
    (∀ (body : List Word) (c : SSAConverter) (st : List Register),
        2 * sizeOf body + 1 < n → conv_ok c (c.convert_begin_until body st)) ∧
    (∀ (condition body : List Word) (c : SSAConverter) (st : List Register),
        2 * (sizeOf condition + sizeOf body) + 1 < n →
        conv_ok c (c.convert_begin_while_repeat condition body st)) ∧
    (∀ (body : List Word) (c : SSAConverter) (st : List Register),
        2 * sizeOf body + 1 < n → conv_ok c (c.convert_do_loop body st)) := by
  intro n
  induction n using Nat.strong_induction_on with
  | _ n ih =>
    refine ⟨?_, ?_, ?_, ?_, ?_, ?_, ?_⟩
    -- convert_sequence
    · intro ws c st hn
      cases ws with
      | nil =>
        simp only [SSAConverter.convert_sequence]
        exact conv_ok_ids _ _ _ rfl
      | cons w ws =>
        have hws := wlist_sizeOf_pos ws
        have hw := word_sizeOf_pos w
        simp only [List.cons.sizeOf_spec] at hn
        have hword := (ih (2 * sizeOf w + 2) (by omega)).2.1 w c st (by omega)
        simp only [SSAConverter.convert_sequence]
        cases hres : c.convert_word w st with
        | error e =>
          rw [hres] at hword
          exact conv_ok_error_of _ _ hword.1
        | ok p =>
          obtain ⟨c1, st1⟩ := p
          rw [hres] at hword
          have hseq := (ih (2 * sizeOf ws + 1) (by omega)).1 ws c1 st1 (by omega)
          exact conv_ok_mono c c1 (hword.2 c1 st1 rfl) _ hseq
    -- convert_word
    · intro w c st hn
      cases w with
      | IntLiteral v =>
        simp only [SSAConverter.convert_word]
        exact conv_ok_ids _ _ _ (emit_ids _ _)
      | FloatLiteral v =>
        simp only [SSAConverter.convert_word]
        exact conv_ok_ids _ _ _ (emit_ids _ _)
      | StringLiteral v =>
        simp only [SSAConverter.convert_word]
        exact conv_ok_ids _ _ _ (emit_ids _ _)
      | WordRef name =>
        simp only [SSAConverter.convert_word]
        exact convert_word_call_step _ _ _
      | If tb eb =>
        simp only [SSAConverter.convert_word]
        simp only [Word.If.sizeOf_spec] at hn
        exact (ih (2 * (sizeOf tb + sizeOf eb) + 2) (by omega)).2.2.1 tb eb c st (by omega)
      | BeginUntil body =>
        simp only [SSAConverter.convert_word]
        simp only [Word.BeginUntil.sizeOf_spec] at hn
        exact (ih (2 * sizeOf body + 2) (by omega)).2.2.2.2.1 body c st (by omega)
      | BeginWhileRepeat condition body =>
        simp only [SSAConverter.convert_word]
        simp only [Word.BeginWhileRepeat.sizeOf_spec] at hn
        exact (ih (2 * (sizeOf condition + sizeOf body) + 2) (by omega)).2.2.2.2.2.1
          condition body c st (by omega)
      | DoLoop body inc =>
        simp only [SSAConverter.convert_word]
        simp only [Word.DoLoop.sizeOf_spec] at hn
        exact (ih (2 * sizeOf body + 2) (by omega)).2.2.2.2.2.2 body c st (by omega)
      | Variable nm =>
        simp only [SSAConverter.convert_word]
        exact conv_ok_ids _ _ _ rfl
      | Constant nm v =>
        simp only [SSAConverter.convert_word]
        exact conv_ok_ids _ _ _ (emit_ids _ _)
      | Comment t =>
        simp only [SSAConverter.convert_word]
        exact conv_ok_ids _ _ _ rfl
    -- convert_if
    · intro tb eb c st hn
      have htb := wlist_sizeOf_pos tb
      have heb := wopt_sizeOf_pos eb
      rw [SSAConverter.convert_if.eq_def]
      dsimp only
      cases st with
      | nil => exact conv_ok_error _ _ _ _
      | cons condition pre =>
        dsimp only
        set centry := (((pick_else_block (c.create_block.1.create_block.1) eb
            (c.create_block.1.create_block.2)).1.emit
            (SSAInstruction.Branch condition c.create_block.2
              (pick_else_block (c.create_block.1.create_block.1) eb
                (c.create_block.1.create_block.2)).2)).set_current_block
            c.create_block.2) with hcentry
        have hpre : block_ids c <+: block_ids centry := by
          rw [hcentry, emit_set_ids]
          exact (create_block_extends c).trans ((create_block_extends _).trans
            (pick_else_block_extends _ _ _))
        have hthen := (ih (2 * sizeOf tb + 1) (by omega)).1 tb centry pre (by omega)
        cases hres : centry.convert_sequence tb pre with
        | error e =>
          rw [hres] at hthen
          exact conv_ok_error_of _ _ hthen.1
        | ok p =>
          obtain ⟨cT, ts⟩ := p
          rw [hres] at hthen
          dsimp only
          have helse := (ih (2 * sizeOf eb + 2) (by omega)).2.2.2.1 eb
            (cT.emit (SSAInstruction.Jump c.create_block.1.create_block.2))
            (pick_else_block (c.create_block.1.create_block.1) eb
              (c.create_block.1.create_block.2)).2
            c.create_block.1.create_block.2 pre (by omega)
          cases hres2 : (cT.emit
              (SSAInstruction.Jump c.create_block.1.create_block.2)).convert_if_else eb
              (pick_else_block (c.create_block.1.create_block.1) eb
                (c.create_block.1.create_block.2)).2
              c.create_block.1.create_block.2 pre with
          | error e =>
            rw [hres2] at helse
            exact conv_ok_error_of _ _ (underflow_only_error_any e helse.1)
          | ok cX =>
            rw [hres2] at helse
            dsimp only
            refine ⟨trivial, fun c2 st2 he => ?_⟩
            cases he
            have h1 : block_ids centry <+: block_ids cT := hthen.2 cT ts rfl
            have h2 : block_ids cT <+: block_ids cX := by
              rw [← emit_ids cT (SSAInstruction.Jump c.create_block.1.create_block.2)]
              exact helse.2 cX rfl
            exact hpre.trans (h1.trans h2)
    -- convert_if_else
    · intro eb c ebk mbk pre hn
      cases eb with
      | none =>
        rw [SSAConverter.convert_if_else.eq_def]
        exact ⟨trivial, fun c2 he => by cases he; exact List.prefix_rfl⟩
      | some ews =>
        simp only [Option.some.sizeOf_spec] at hn
        rw [SSAConverter.convert_if_else.eq_def]
        dsimp only
        have hseq := (ih (2 * sizeOf ews + 1) (by omega)).1 ews
          (c.set_current_block ebk) pre (by omega)
        cases hres : (c.set_current_block ebk).convert_sequence ews pre with
        | error e =>
          rw [hres] at hseq
          dsimp only
          exact ⟨underflow_only_error_any e hseq.1, fun _ he => by cases he⟩
        | ok p =>
          obtain ⟨cE, ds⟩ := p
          rw [hres] at hseq
          dsimp only
          refine ⟨trivial, fun c2 he => ?_⟩
          cases he
          rw [emit_ids]
          exact hseq.2 cE ds rfl
    -- convert_begin_until
    · intro body c st hn
      rw [SSAConverter.convert_begin_until.eq_def]
      dsimp only
      set centry := ((c.create_block.1.create_block.1.emit
          (SSAInstruction.Jump c.create_block.2)).set_current_block
          c.create_block.2) with hcentry
      have hpre : block_ids c <+: block_ids centry := by
        rw [hcentry, emit_set_ids]
        exact (create_block_extends c).trans (create_block_extends _)
      have hseq := (ih (2 * sizeOf body + 1) (by omega)).1 body centry st (by omega)
      cases hres : centry.convert_sequence body st with
      | error e =>
        rw [hres] at hseq
        exact conv_ok_error_of _ _ hseq.1
      | ok p =>
        obtain ⟨cB, ls⟩ := p
        rw [hres] at hseq
        dsimp only
        cases ls with
        | nil => exact conv_ok_error _ _ _ _
        | cons condition ls2 =>
          dsimp only
          refine ⟨trivial, fun c2 st2 he => ?_⟩
          cases he
          rw [emit_set_ids]
          exact hpre.trans (hseq.2 cB (condition :: ls2) rfl)
    -- convert_begin_while_repeat
    · intro condition body c st hn
      rw [SSAConverter.convert_begin_while_repeat.eq_def]
      dsimp only
      set centry := ((c.create_block.1.create_block.1.create_block.1.emit
          (SSAInstruction.Jump c.create_block.2)).set_current_block
          c.create_block.2) with hcentry
      have hpre : block_ids c <+: block_ids centry := by
        rw [hcentry, emit_set_ids]
        exact (create_block_extends c).trans ((create_block_extends _).trans
          (create_block_extends _))
      have hcond := (ih (2 * sizeOf condition + 1) (by omega)).1 condition centry st
        (by omega)
      cases hres : centry.convert_sequence condition st with
      | error e =>
        rw [hres] at hcond
        exact conv_ok_error_of _ _ hcond.1
      | ok p =>
        obtain ⟨cC, cs⟩ := p
        rw [hres] at hcond
        dsimp only
        cases cs with
        | nil => exact conv_ok_error _ _ _ _
        | cons cond_val cond_stack =>
          dsimp only
          have hbody := (ih (2 * sizeOf body + 1) (by omega)).1 body
            ((cC.emit (SSAInstruction.Branch cond_val
              (c.create_block.1.create_block.2)
              (c.create_block.1.create_block.1.create_block.2))).set_current_block
              (c.create_block.1.create_block.2)) cond_stack (by omega)
          cases hres2 : ((cC.emit (SSAInstruction.Branch cond_val
              (c.create_block.1.create_block.2)
              (c.create_block.1.create_block.1.create_block.2))).set_current_block
              (c.create_block.1.create_block.2)).convert_sequence body cond_stack with
          | error e =>
            rw [hres2] at hbody
            exact conv_ok_error_of _ _ hbody.1
          | ok p2 =>
            obtain ⟨cB, bs⟩ := p2
            rw [hres2] at hbody
            dsimp only
            refine ⟨trivial, fun c2 st2 he => ?_⟩
            cases he
            rw [emit_set_ids]
            have h1 : block_ids centry <+: block_ids cC :=
              hcond.2 cC (cond_val :: cond_stack) rfl
            have h2 : block_ids cC <+: block_ids cB := by
              have := hbody.2 cB bs rfl
              rwa [emit_set_ids] at this
            exact hpre.trans (h1.trans h2)
    -- convert_do_loop
    · intro body c st hn
      rw [SSAConverter.convert_do_loop.eq_def]
      dsimp only
      cases st with
      | nil => exact conv_ok_error _ _ _ _
      | cons a t =>
        cases t with
        | nil => exact conv_ok_error _ _ _ _
        | cons b rest =>
          dsimp only
          set centry := ((c.create_block.1.create_block.1.emit
              (SSAInstruction.Jump c.create_block.2)).set_current_block
              c.create_block.2) with hcentry
          have hpre : block_ids c <+: block_ids centry := by
            rw [hcentry, emit_set_ids]
            exact (create_block_extends c).trans (create_block_extends _)
          have hseq := (ih (2 * sizeOf body + 1) (by omega)).1 body centry rest (by omega)
          cases hres : centry.convert_sequence body rest with
          | error e =>
            rw [hres] at hseq
            exact conv_ok_error_of _ _ hseq.1
          | ok p =>
            obtain ⟨cB, ls⟩ := p
            rw [hres] at hseq
            dsimp only
            refine ⟨trivial, fun c2 st2 he => ?_⟩
            cases he
            rw [emit_set_ids]
            exact hpre.trans (hseq.2 cB ls rfl)

/-- Instantiated form of the induction for `convert_sequence`. -/
theorem convert_sequence_step (c : SSAConverter) (ws : List Word) (st : List Register) :
    conv_ok c (c.convert_sequence ws st) :=
  (conv_step_all (2 * sizeOf ws + 1)).1 ws c st (by omega)

/-! ## Claim C10: no StackOverflow from SSA construction -/

theorem underflow_only_shape {α : Type} (e : ForthError)
    (h : underflow_only (α := α) (.error e)) :
    ∃ w a b, e = ForthError.StackUnderflow w a b := by
  cases e with
  | StackUnderflow w a b => exact ⟨w, a, b, rfl⟩
  | StackOverflow w l => simp [underflow_only] at h
  | InvalidStackEffect m => simp [underflow_only] at h
  | OptimizationFailed m => simp [underflow_only] at h
  | ParseError l col m => simp [underflow_only] at h

/-- The declared parameter count of a definition. -/
def def_param_count (d : Definition) : Nat :=
  (d.stack_effect.map (fun e => e.inputs.length)).getD 0

/-- The converter state in which `convert_definition` translates the body:
register counter reset to the parameter count, entry block created and made
current. -/
def def_entry (c : SSAConverter) (d : Definition) : SSAConverter :=
  ({ c with next_register := def_param_count d }).create_block.1.set_current_block
    ({ c with next_register := def_param_count d }).create_block.2

/-- The initial simulated stack of a definition: the parameter registers
(top of the stack at the head). -/
def def_stack (d : Definition) : List Register :=
  (SSAFunction.new d.name (def_param_count d)).parameters.reverse

/-- `convert_definition` restated through the named entry state; both sides
unfold to the same term. -/
theorem convert_definition_eq (c : SSAConverter) (d : Definition) :
    c.convert_definition d =
      (match (def_entry c d).convert_sequence d.body (def_stack d) with
       | .error e => .error e
       | .ok (c2, stack) =>
         .ok ({ c2.emit (.Return stack.reverse) with blocks := [] },
              { SSAFunction.new d.name (def_param_count d) with
                blocks := (c2.emit (.Return stack.reverse)).blocks })) := rfl

theorem convert_definition_underflow (c : SSAConverter) (d : Definition) :
    underflow_only (c.convert_definition d) := by
  rw [convert_definition_eq]
  have hstep := convert_sequence_step (def_entry c d) d.body (def_stack d)
  cases hres : (def_entry c d).convert_sequence d.body (def_stack d) with
  | error e =>
    rw [hres] at hstep
    exact underflow_only_error_any e hstep.1
  | ok p =>
    obtain ⟨c3, st⟩ := p
    exact trivial

theorem convert_to_ssa_go_underflow (ds : List Definition) :
    ∀ (c : SSAConverter) (e : ForthError),
      convert_to_ssa.go c ds = .error e → ∃ w a b, e = ForthError.StackUnderflow w a b := by
  induction ds with
  | nil =>
    intro c e h
    simp [convert_to_ssa.go] at h
  | cons d ds ih =>
    intro c e h
    simp only [convert_to_ssa.go] at h
    cases hres : c.convert_definition d with
    | error e0 =>
      rw [hres] at h
      dsimp only at h
      cases h
      have := convert_definition_underflow c d
      rw [hres] at this
      exact underflow_only_shape _ this
    | ok p =>
      obtain ⟨c1, f⟩ := p
      rw [hres] at h
      dsimp only at h
      cases hres2 : convert_to_ssa.go c1 ds with
      | error e1 =>
        rw [hres2] at h
        dsimp only at h
        cases h
        exact ih c1 _ hres2
      | ok fns =>
        rw [hres2] at h
        dsimp only at h
        cases h

/-- C10: SSA construction never signals a StackOverflow condition - the
simulated stack is an unbounded list and no converter operation checks a
depth bound, so whenever converting a definition (or a whole program) fails,
the error is a `StackUnderflow`, never a `StackOverflow`. -/
theorem ssa_never_stack_overflow :
    (∀ (c : SSAConverter) (d : Definition) (e : ForthError),
        c.convert_definition d = .error e →
        ∃ word required available, e = ForthError.StackUnderflow word required available) ∧
    (∀ (p : Program) (e : ForthError),
        convert_to_ssa p = .error e →
        ∃ word required available, e = ForthError.StackUnderflow word required available) := by
  constructor
  · intro c d e h
    have := convert_definition_underflow c d
    rw [h] at this
    exact underflow_only_shape e this
  · intro p e h
    simp only [convert_to_ssa] at h
    exact convert_to_ssa_go_underflow p.definitions SSAConverter.new e h

/-- The definition `: bad + ;`, which underflows immediately. -/
def bad_def : Definition :=
  { name := "bad", body := [.WordRef "+"], immediate := false, stack_effect := none }

/-- Witness for C10: converting `: bad + ;` fails, and the theorem exhibits
the error as a `StackUnderflow`. -/
theorem ssa_never_stack_overflow_witness :
    ∃ word required available,
      ForthError.StackUnderflow "add" 2 0 =
        ForthError.StackUnderflow word required available :=
  ssa_never_stack_overflow.1 SSAConverter.new bad_def (ForthError.StackUnderflow "add" 2 0)
    (by simp [bad_def, SSAConverter.convert_definition, SSAConverter.convert_sequence,
      SSAConverter.convert_word, SSAConverter.convert_word_call,
      SSAConverter.convert_binary_op, SSAConverter.new, SSAConverter.create_block,
      SSAConverter.fresh_block, SSAConverter.set_current_block, SSAFunction.new,
      BinaryOperator.display, BasicBlock.new])

/-! ## Claim C2: block 0 as entry block -/

/-- A two-definition program: `: a ;` followed by `: b 1 ;`. -/
def c2_program : Program :=
  { definitions :=
      [ { name := "a", body := [], immediate := false, stack_effect := none },
        { name := "b", body := [.IntLiteral 1], immediate := false, stack_effect := none } ],
    top_level_code := [] }

/-- C2 counterexample: `convert_to_ssa` threads one converter through all
definitions and `next_block` is never reset, so the second definition's body
is translated into block 1 while its `entry_block` field still says 0 and no
block with identifier 0 exists in its block list - the claim fails for every
definition after the first. -/
theorem second_definition_lacks_block_zero :
    convert_to_ssa c2_program =
      .ok [ { name := "a", parameters := [],
              blocks := [⟨⟨0⟩, [.Return []], []⟩], entry_block := ⟨0⟩ },
            { name := "b", parameters := [],
              blocks := [⟨⟨1⟩, [.LoadInt ⟨0⟩ 1, .Return [⟨0⟩]], []⟩], entry_block := ⟨0⟩ } ] ∧
    (({ name := "b", parameters := [],
        blocks := [⟨⟨1⟩, [.LoadInt ⟨0⟩ 1, .Return [⟨0⟩]], []⟩],
        entry_block := ⟨0⟩ } : SSAFunction).blocks.all
      (fun b => b.id != (⟨0⟩ : BlockId))) = true := by
  constructor
  · simp [convert_to_ssa, convert_to_ssa.go, SSAConverter.convert_definition,
      SSAConverter.convert_sequence, SSAConverter.convert_word, SSAConverter.new,
      SSAConverter.create_block, SSAConverter.fresh_block, SSAConverter.fresh_register,
      SSAConverter.emit, SSAConverter.set_current_block, emit_into, BasicBlock.new,
      SSAFunction.new, c2_program]
  · decide

/-- C2 (amended): for the first definition a program submits to the
converter - equivalently, whenever a definition is converted from the fresh
converter state - block 0 is the entry: the function's `entry_block` field is
0, the first block of its block list has identifier 0 (so a block with
identifier 0 is present), and the converter state in which the body is
translated has its current-block cursor on block 0 and performs exactly the
body translation recorded here. -/
theorem first_definition_entry_is_block_zero (d : Definition) (c2 : SSAConverter)
    (f : SSAFunction) (h : SSAConverter.new.convert_definition d = .ok (c2, f)) :
    f.entry_block = ⟨0⟩ ∧
    (f.blocks.map (fun b => b.id)).head? = some ⟨0⟩ ∧
    (def_entry SSAConverter.new d).current_block = ⟨0⟩ ∧
    ∃ body_result,
      (def_entry SSAConverter.new d).convert_sequence d.body (def_stack d) =
        .ok body_result := by
  rw [convert_definition_eq] at h
  have hstep := convert_sequence_step (def_entry SSAConverter.new d) d.body (def_stack d)
  cases hres : (def_entry SSAConverter.new d).convert_sequence d.body (def_stack d) with
  | error e =>
    rw [hres] at h
    exact absurd h (by simp)
  | ok p =>
    obtain ⟨c3, st⟩ := p
    rw [hres] at h
    rw [hres] at hstep
    dsimp only at h
    simp only [Except.ok.injEq, Prod.mk.injEq] at h
    obtain ⟨h1, h2⟩ := h
    refine ⟨?_, ?_, rfl, ⟨(c3, st), rfl⟩⟩
    · rw [← h2]
      rfl
    · rw [← h2]
      have hpre : block_ids (def_entry SSAConverter.new d) <+: block_ids c3 :=
        hstep.2 c3 st rfl
      have hids : block_ids (def_entry SSAConverter.new d) = [⟨0⟩] := by
        simp [def_entry, block_ids, SSAConverter.create_block, SSAConverter.fresh_block,
          SSAConverter.set_current_block, SSAConverter.new, BasicBlock.new]
      rw [hids] at hpre
      obtain ⟨t, ht⟩ := hpre
      show (block_ids (c3.emit (.Return st.reverse))).head? = some ⟨0⟩
      rw [emit_ids, ← ht]
      rfl

/-- The definition `: bzero 1 ;`, used by the amended-C2 witness. -/
def bzero_def : Definition :=
  { name := "bzero", body := [.IntLiteral 1], immediate := false, stack_effect := none }

/-- Witness for the amended C2: converting `: bzero 1 ;` from a fresh
converter puts the body in block 0. -/
theorem first_definition_entry_is_block_zero_witness :
    (({ name := "bzero", parameters := [],
        blocks := [⟨⟨0⟩, [.LoadInt ⟨0⟩ 1, .Return [⟨0⟩]], []⟩],
        entry_block := ⟨0⟩ } : SSAFunction).entry_block = ⟨0⟩) ∧
    ((({ name := "bzero", parameters := [],
         blocks := [⟨⟨0⟩, [.LoadInt ⟨0⟩ 1, .Return [⟨0⟩]], []⟩],
         entry_block := ⟨0⟩ } : SSAFunction).blocks.map (fun b => b.id)).head? = some ⟨0⟩) ∧
    (def_entry SSAConverter.new bzero_def).current_block = ⟨0⟩ ∧
    ∃ body_result,
      (def_entry SSAConverter.new bzero_def).convert_sequence bzero_def.body
        (def_stack bzero_def) = .ok body_result :=
  first_definition_entry_is_block_zero bzero_def
    { next_register := 1, next_block := 1, current_block := ⟨0⟩, blocks := [] }
    { name := "bzero", parameters := [],
      blocks := [⟨⟨0⟩, [.LoadInt ⟨0⟩ 1, .Return [⟨0⟩]], []⟩], entry_block := ⟨0⟩ }
    (by simp [bzero_def, SSAConverter.convert_definition, SSAConverter.convert_sequence,
      SSAConverter.convert_word, SSAConverter.new, SSAConverter.create_block,
      SSAConverter.fresh_block, SSAConverter.fresh_register, SSAConverter.emit,
      SSAConverter.set_current_block, emit_into, BasicBlock.new, SSAFunction.new])

end FastForth
